import Mathlib

/-!
# WF-analyzer: shallow embedding and verification of the market-tracker core

This file embeds the core logic of the WF-analyzer repository (a Warframe
market price tracker) in Lean 4 and proves or refutes the frozen claims
about it.

Embedding conventions:
* Python ints are `Int`; Python float arithmetic in the deal evaluator
  (`median * 0.85`) is modelled exactly over `ℚ` (`0.85 = 17/20`).
* Python `sorted(...)` on integer lists is modelled by insertion sort; on a
  list of integers every comparison sort produces the same output list, so
  this agrees with CPython's Timsort.
* External effects (the upstream HTTP fetch, the PostgreSQL backend) are
  modelled by explicit outcome values passed to the embedded functions:
  `none` / error constructors stand for the exception paths the Python code
  catches.
* The desktop GUI (`main.py`) calls a connection-taking storage-handler
  variant that is not present under `src/`; where its behaviour matters the
  embedding follows the contract of the present `src/database_handler.py`
  (same operations minus the connection argument).
-/

namespace WFAnalyzer

/-- A market order as produced by the upstream API and consumed by
`api_handler.get_market_data` (the nested `user` record is flattened into
the `user_status` / `user_platform` fields). -/
structure Order where
  order_type : String
  platinum : Int
  visible : Bool
  user_status : String
  user_platform : String
deriving DecidableEq, Repr

/-- Python's `str.lower()` (character-wise lowercasing), written structurally
so that concrete inputs evaluate inside the kernel. -/
def pyLower (s : String) : String :=
  ⟨s.data.map Char.toLower⟩

/-- The filter predicate of `api_handler.get_market_data` (src/api_handler.py
lines 22-27): trader platform matches, trader status is "ingame" or "online"
(case-insensitively), and the order is visible. -/
def relevantOrder (platform : String) (o : Order) : Bool :=
  o.user_platform == platform &&
    (pyLower o.user_status == "ingame" || pyLower o.user_status == "online") &&
    o.visible

/-- `api_handler.get_market_data` (src/api_handler.py lines 9-35).
`payload = none` models every failure path (network error, non-2xx, timeout,
JSON decode error, missing `payload`/`orders` fields): the function catches
every exception and returns `None`.  On success it filters the raw order
list to the relevant orders. -/
def get_market_data (platform : String) (payload : Option (List Order)) :
    Option (List Order) :=
  match payload with
  | none => none
  | some allOrders => some (allOrders.filter (relevantOrder platform))

/-- The sell-side price list `[o['platinum'] for o in orders if
o.get('order_type') == 'sell' and 'platinum' in o]` (platinum is a total
field of the embedded `Order`). -/
def sellPricesOf (orders : List Order) : List Int :=
  (orders.filter (fun o => o.order_type == "sell")).map (·.platinum)

/-- The buy-side price list. -/
def buyPricesOf (orders : List Order) : List Int :=
  (orders.filter (fun o => o.order_type == "buy")).map (·.platinum)

/-- Python `sorted(...)` (ascending) on an integer list. -/
def pySortedAsc (l : List Int) : List Int :=
  List.insertionSort (· ≤ ·) l

/-- Python `sorted(..., reverse=True)` (descending) on an integer list. -/
def pySortedDesc (l : List Int) : List Int :=
  List.insertionSort (fun a b => b ≤ a) l

/-- `sell_prices[0] if sell_prices else None` after ascending sort. -/
def minSellOf (orders : List Order) : Option Int :=
  (pySortedAsc (sellPricesOf orders)).head?

/-- `buy_prices[0] if buy_prices else None` after descending sort. -/
def maxBuyOf (orders : List Order) : Option Int :=
  (pySortedDesc (buyPricesOf orders)).head?

/-- `api_handler.get_current_min_max_prices` (src/api_handler.py lines
38-64).  The argument is the result of `get_market_data`: `none` when the
fetch failed.  Returns `(None, None)` on failure or when no relevant order
exists, otherwise the head of the ascending-sorted sell prices and of the
descending-sorted buy prices. -/
def get_current_min_max_prices (fetchResult : Option (List Order)) :
    Option Int × Option Int :=
  match fetchResult with
  | none => (none, none)
  | some orders =>
    if orders = [] then (none, none)
    else (minSellOf orders, maxBuyOf orders)

section SortFacts

instance decRelLeInt : DecidableRel (fun a b : Int => b ≤ a) :=
  fun a b => inferInstanceAs (Decidable (b ≤ a))

instance isTotalLeFlip : IsTotal Int (fun a b : Int => b ≤ a) :=
  ⟨fun a b => le_total b a⟩

instance isTransLeFlip : IsTrans Int (fun a b : Int => b ≤ a) :=
  ⟨fun _ _ _ h1 h2 => le_trans h2 h1⟩

theorem pySortedAsc_eq_nil_iff (l : List Int) : pySortedAsc l = [] ↔ l = [] := by
  constructor
  · intro h
    have hl := (List.perm_insertionSort (· ≤ ·) l).length_eq
    rw [pySortedAsc] at h
    rw [h] at hl
    exact List.length_eq_zero.mp hl.symm
  · intro h; subst h; rfl

theorem pySortedDesc_eq_nil_iff (l : List Int) : pySortedDesc l = [] ↔ l = [] := by
  constructor
  · intro h
    have hl := (List.perm_insertionSort (fun a b : Int => b ≤ a) l).length_eq
    rw [pySortedDesc] at h
    rw [h] at hl
    exact List.length_eq_zero.mp hl.symm
  · intro h; subst h; rfl

/-- The head of the ascending sort is a member of the list and a lower bound
for it. -/
theorem head_pySortedAsc_min (l : List Int) (m : Int)
    (h : (pySortedAsc l).head? = some m) : m ∈ l ∧ ∀ a ∈ l, m ≤ a := by
  have hperm := List.perm_insertionSort (· ≤ ·) l
  have hsorted := List.sorted_insertionSort (α := Int) (· ≤ ·) l
  cases hs : pySortedAsc l with
  | nil => rw [hs] at h; exact absurd h (by simp)
  | cons x t =>
    rw [hs] at h
    have hm : x = m := by simpa using h
    subst hm
    rw [pySortedAsc] at hs
    rw [hs] at hperm hsorted
    have hpair := List.sorted_cons.mp hsorted
    constructor
    · exact hperm.mem_iff.mp (by simp)
    · intro a ha
      have : a ∈ x :: t := hperm.mem_iff.mpr ha
      rcases List.mem_cons.mp this with h1 | h2
      · exact le_of_eq h1.symm
      · exact hpair.1 a h2

/-- The head of the descending sort is a member of the list and an upper
bound for it. -/
theorem head_pySortedDesc_max (l : List Int) (m : Int)
    (h : (pySortedDesc l).head? = some m) : m ∈ l ∧ ∀ a ∈ l, a ≤ m := by
  have hperm := List.perm_insertionSort (fun a b : Int => b ≤ a) l
  have hsorted := List.sorted_insertionSort (α := Int) (fun a b : Int => b ≤ a) l
  cases hs : pySortedDesc l with
  | nil => rw [hs] at h; exact absurd h (by simp)
  | cons x t =>
    rw [hs] at h
    have hm : x = m := by simpa using h
    subst hm
    rw [pySortedDesc] at hs
    rw [hs] at hperm hsorted
    have hpair := List.sorted_cons.mp hsorted
    constructor
    · exact hperm.mem_iff.mp (by simp)
    · intro a ha
      have : a ∈ x :: t := hperm.mem_iff.mpr ha
      rcases List.mem_cons.mp this with h1 | h2
      · exact le_of_eq h1
      · exact hpair.1 a h2

theorem minSellOf_none_iff (orders : List Order) :
    minSellOf orders = none ↔ sellPricesOf orders = [] := by
  rw [minSellOf, List.head?_eq_none_iff, pySortedAsc_eq_nil_iff]

theorem maxBuyOf_none_iff (orders : List Order) :
    maxBuyOf orders = none ↔ buyPricesOf orders = [] := by
  rw [maxBuyOf, List.head?_eq_none_iff, pySortedDesc_eq_nil_iff]

theorem minSellOf_spec (orders : List Order) (m : Int)
    (h : minSellOf orders = some m) :
    m ∈ sellPricesOf orders ∧ ∀ q ∈ sellPricesOf orders, m ≤ q :=
  head_pySortedAsc_min _ _ h

theorem maxBuyOf_spec (orders : List Order) (m : Int)
    (h : maxBuyOf orders = some m) :
    m ∈ buyPricesOf orders ∧ ∀ q ∈ buyPricesOf orders, q ≤ m :=
  head_pySortedDesc_max _ _ h

end SortFacts

/-- C7: the Market Data Client's filtered output is a sublist of the raw
upstream order list, and every order in it has matching platform,
online-equivalent trader status, and visibility set; no violating order
appears. -/
theorem market_data_filter_subset (platform : String) (raw : List Order)
    (result : List Order) (h : get_market_data platform (some raw) = some result) :
    result.Sublist raw ∧
      ∀ o ∈ result,
        o.user_platform = platform ∧
          (pyLower o.user_status = "ingame" ∨ pyLower o.user_status = "online") ∧
          o.visible = true := by
  have hr : result = raw.filter (relevantOrder platform) := by
    simpa [get_market_data] using h.symm
  subst hr
  refine ⟨List.filter_sublist raw, ?_⟩
  intro o ho
  have hrel : relevantOrder platform o = true := List.of_mem_filter ho
  rw [relevantOrder] at hrel
  simp only [Bool.and_eq_true, Bool.or_eq_true, beq_iff_eq] at hrel
  exact ⟨hrel.1.1, hrel.1.2, hrel.2⟩

/-- Witness for `market_data_filter_subset`: a concrete two-order list in
which only the visible, in-game, matching-platform order survives. -/
theorem market_data_filter_subset_witness :
    ([⟨"sell", 10, true, "InGame", "pc"⟩] : List Order).Sublist
        [⟨"sell", 10, true, "InGame", "pc"⟩, ⟨"sell", 7, false, "offline", "pc"⟩] ∧
      ∀ o ∈ ([⟨"sell", 10, true, "InGame", "pc"⟩] : List Order),
        o.user_platform = "pc" ∧
          (pyLower o.user_status = "ingame" ∨ pyLower o.user_status = "online") ∧
          o.visible = true :=
  market_data_filter_subset "pc"
    [⟨"sell", 10, true, "InGame", "pc"⟩, ⟨"sell", 7, false, "offline", "pc"⟩]
    [⟨"sell", 10, true, "InGame", "pc"⟩] (by decide)

/-- C6: for every (successfully fetched) order set, `get_current_min_max_prices`
returns the minimum of the side=sell prices as the first component and the
maximum of the side=buy prices as the second, each `none` exactly when that
side has no orders. -/
theorem best_prices_min_max (orders : List Order) :
    ((get_current_min_max_prices (some orders)).1 = none ↔ sellPricesOf orders = []) ∧
      (∀ m, (get_current_min_max_prices (some orders)).1 = some m →
        m ∈ sellPricesOf orders ∧ ∀ q ∈ sellPricesOf orders, m ≤ q) ∧
      ((get_current_min_max_prices (some orders)).2 = none ↔ buyPricesOf orders = []) ∧
      (∀ m, (get_current_min_max_prices (some orders)).2 = some m →
        m ∈ buyPricesOf orders ∧ ∀ q ∈ buyPricesOf orders, q ≤ m) := by
  by_cases hnil : orders = []
  · subst hnil
    refine ⟨by simp [get_current_min_max_prices, sellPricesOf], ?_,
      by simp [get_current_min_max_prices, buyPricesOf], ?_⟩ <;>
      intro m hm <;> simp [get_current_min_max_prices] at hm
  · have hval : get_current_min_max_prices (some orders) = (minSellOf orders, maxBuyOf orders) := by
      simp [get_current_min_max_prices, hnil]
    rw [hval]
    exact ⟨minSellOf_none_iff orders, fun m hm => minSellOf_spec orders m hm,
      maxBuyOf_none_iff orders, fun m hm => maxBuyOf_spec orders m hm⟩

/-- Witness for `best_prices_min_max` at a concrete three-order set. -/
theorem best_prices_min_max_witness :
    (10 : Int) ∈ sellPricesOf
        [⟨"sell", 12, true, "ingame", "pc"⟩, ⟨"sell", 10, true, "ingame", "pc"⟩,
          ⟨"buy", 8, true, "ingame", "pc"⟩] ∧
      ∀ q ∈ sellPricesOf
          [⟨"sell", 12, true, "ingame", "pc"⟩, ⟨"sell", 10, true, "ingame", "pc"⟩,
            ⟨"buy", 8, true, "ingame", "pc"⟩], (10 : Int) ≤ q :=
  (best_prices_min_max
      [⟨"sell", 12, true, "ingame", "pc"⟩, ⟨"sell", 10, true, "ingame", "pc"⟩,
        ⟨"buy", 8, true, "ingame", "pc"⟩]).2.1 10 (by decide)

/-! ## Deal evaluator (`main.py`, `check_watched_item_deal`) -/

/-- `MIN_HISTORICAL_POINTS` from `check_watched_item_deal`. -/
def MIN_HISTORICAL_POINTS : Nat := 5

/-- `BUY_THRESHOLD_PERCENT = 0.85`, modelled exactly as the rational 17/20. -/
def BUY_THRESHOLD_PERCENT : ℚ := 17 / 20

/-- Python's `statistics.median` on an integer list: sort ascending; odd
length takes the middle element, even length averages the two middle
elements; raises (here: `none`) only on empty data.  The `getD` default is
never used: the indices are in range whenever the list is nonempty. -/
def pyMedian (l : List Int) : Option ℚ :=
  if (pySortedAsc l).length = 0 then none
  else if (pySortedAsc l).length % 2 = 1 then
    some (((pySortedAsc l).getD ((pySortedAsc l).length / 2) 0 : Int) : ℚ)
  else
    some (((((pySortedAsc l).getD ((pySortedAsc l).length / 2 - 1) 0 : Int) : ℚ) +
      (((pySortedAsc l).getD ((pySortedAsc l).length / 2) 0 : Int) : ℚ)) / 2)

/-- The evaluator's verdict.  The constructors carry exactly the numbers the
corresponding status strings of `check_watched_item_deal` embed:
`"Error: API Fetch Failed"`, `"Not Enough Data (<5)"` (only the bound 5, no
have-count), `"Error: Calculation Failed"`, `"Good Buy! (Xp < Yp)"`,
`"Normal (Xp vs Yp)"`. -/
inductive DealStatus where
  | apiFetchFailed
  | notEnoughData (need : Nat)
  | calculationFailed
  | goodBuy (current : Int) (threshold : ℚ)
  | normal (current : Int) (median : ℚ)
deriving DecidableEq, Repr

/-- Recogniser for the `goodBuy` verdict. -/
def DealStatus.isGoodBuy : DealStatus → Bool
  | DealStatus.goodBuy _ _ => true
  | _ => false

/-- `check_watched_item_deal` (src/main.py lines 258-270).  The first
argument is the current minimum sell price from
`get_current_min_max_prices` (`none` when the fetch failed or no sell
order exists); the second is the 7-day historical sell-price window from
the price-history store. -/
def check_watched_item_deal (currentMinSell : Option Int)
    (historicalSellPrices : List Int) : DealStatus :=
  match currentMinSell with
  | none => DealStatus.apiFetchFailed
  | some current =>
    if historicalSellPrices = [] ∨ historicalSellPrices.length < MIN_HISTORICAL_POINTS then
      DealStatus.notEnoughData MIN_HISTORICAL_POINTS
    else
      match pyMedian historicalSellPrices with
      | none => DealStatus.calculationFailed
      | some medianSellPrice =>
        if (current : ℚ) < medianSellPrice * BUY_THRESHOLD_PERCENT then
          DealStatus.goodBuy current (medianSellPrice * BUY_THRESHOLD_PERCENT)
        else DealStatus.normal current medianSellPrice

theorem pyMedian_isSome (l : List Int) (h : l ≠ []) : ∃ m, pyMedian l = some m := by
  have hn : (pySortedAsc l).length = l.length := List.length_insertionSort _ _
  have hne : ¬(pySortedAsc l).length = 0 := by
    rw [hn]
    have := List.length_pos.mpr h
    omega
  by_cases hpar : (pySortedAsc l).length % 2 = 1
  · exact ⟨_, by rw [pyMedian, if_neg hne, if_pos hpar]⟩
  · exact ⟨_, by rw [pyMedian, if_neg hne, if_neg hpar]⟩

/-- With at least five historical points the evaluator reaches the
threshold comparison and returns `goodBuy` or `normal` accordingly. -/
theorem check_eval_of_ge5 (c : Int) (hist : List Int) (h5 : 5 ≤ hist.length) :
    ∃ m, pyMedian hist = some m ∧
      check_watched_item_deal (some c) hist =
        if (c : ℚ) < m * (17 / 20) then DealStatus.goodBuy c (m * (17 / 20))
        else DealStatus.normal c m := by
  have hne : hist ≠ [] := by
    intro h; subst h; simp at h5
  obtain ⟨m, hm⟩ := pyMedian_isSome hist hne
  refine ⟨m, hm, ?_⟩
  have hcond : ¬(hist = [] ∨ hist.length < MIN_HISTORICAL_POINTS) := by
    rw [MIN_HISTORICAL_POINTS]
    rintro (h | h)
    · exact hne h
    · omega
  rw [check_watched_item_deal, if_neg hcond, hm, BUY_THRESHOLD_PERCENT]

/-- C1: with at least 5 historical sell prices and an available current
minimum sell price, the evaluator returns a good-deal verdict iff the
current price is strictly below 0.85 times the (code-computed) median of
the historical prices; at exact equality with the threshold the verdict is
`normal`, not a good deal. -/
theorem median_threshold_good_deal (c : Int) (hist : List Int)
    (h5 : 5 ≤ hist.length) :
    ∃ m : ℚ, pyMedian hist = some m ∧
      ((check_watched_item_deal (some c) hist).isGoodBuy = true ↔
        (c : ℚ) < (17 / 20) * m) ∧
      ((c : ℚ) = (17 / 20) * m →
        check_watched_item_deal (some c) hist = DealStatus.normal c m) := by
  obtain ⟨m, hm, heval⟩ := check_eval_of_ge5 c hist h5
  refine ⟨m, hm, ?_, ?_⟩
  · rw [heval]
    by_cases hlt : (c : ℚ) < m * (17 / 20)
    · rw [if_pos hlt, mul_comm m (17 / 20)] at *
      simp [DealStatus.isGoodBuy, hlt]
    · rw [if_neg hlt, mul_comm m (17 / 20)] at *
      simp [DealStatus.isGoodBuy, hlt]
  · intro heq
    rw [heval, if_neg]
    rw [heq, mul_comm m (17 / 20)]
    exact lt_irrefl _

/-- Witness for `median_threshold_good_deal`: five historical prices of 100
give median 100 and threshold 85. -/
theorem median_threshold_good_deal_witness :
    ∃ m : ℚ, pyMedian [100, 100, 100, 100, 100] = some m ∧
      ((check_watched_item_deal (some 80) [100, 100, 100, 100, 100]).isGoodBuy = true ↔
        ((80 : Int) : ℚ) < (17 / 20) * m) ∧
      (((80 : Int) : ℚ) = (17 / 20) * m →
        check_watched_item_deal (some 80) [100, 100, 100, 100, 100] =
          DealStatus.normal 80 m) :=
  median_threshold_good_deal 80 [100, 100, 100, 100, 100] (by decide)

/-- Counterexample to C4 as stated: (a) with the current price unavailable
and only 3 historical points the evaluator returns `apiFetchFailed`, not an
insufficient-history verdict, so the "iff ... regardless of the current
price" fails; (b) windows of 3 and of 4 points yield the *same* verdict
(`"Not Enough Data (<5)"`), so the verdict does not report the have-count. -/
theorem insufficient_history_counterexample :
    check_watched_item_deal none [100, 100, 100] = DealStatus.apiFetchFailed ∧
      DealStatus.apiFetchFailed ≠ DealStatus.notEnoughData 5 ∧
      ([100, 100, 100] : List Int).length < 5 ∧
      check_watched_item_deal (some 10) [1, 2, 3] =
        check_watched_item_deal (some 10) [1, 2, 3, 4] := by
  refine ⟨rfl, by decide, by decide, ?_⟩
  rfl

/-- C4 amended: when the current minimum sell price is available, the
evaluator returns the insufficient-history verdict (which reports the need
of 5 but not the have-count) iff the historical window has fewer than 5
points, regardless of the current price's value; when the current price is
unavailable the verdict is `apiFetchFailed` even if the window is small. -/
theorem insufficient_history_amended :
    (∀ (c : Int) (hist : List Int),
      check_watched_item_deal (some c) hist = DealStatus.notEnoughData 5 ↔
        hist.length < 5) ∧
      ∀ hist : List Int, check_watched_item_deal none hist = DealStatus.apiFetchFailed := by
  constructor
  · intro c hist
    constructor
    · intro h
      by_contra hge
      push_neg at hge
      obtain ⟨m, _, heval⟩ := check_eval_of_ge5 c hist hge
      rw [heval] at h
      by_cases hlt : (c : ℚ) < m * (17 / 20)
      · rw [if_pos hlt] at h; exact DealStatus.noConfusion h
      · rw [if_neg hlt] at h; exact DealStatus.noConfusion h
    · intro h
      rw [check_watched_item_deal, if_pos]
      · rfl
      · rw [MIN_HISTORICAL_POINTS]; exact Or.inr h
  · intro hist
    rfl

/-- Witness for `insufficient_history_amended`: four points always give the
insufficient-history verdict. -/
theorem insufficient_history_amended_witness :
    check_watched_item_deal (some 999) [1, 2, 3, 4] = DealStatus.notEnoughData 5 :=
  (insufficient_history_amended.1 999 [1, 2, 3, 4]).mpr (by decide)

/-! ## Price history store (src/database_handler.py) -/

/-- A persisted price point (one `MarketData` row). -/
structure PricePoint where
  item_url_name : String
  platform : String
  order_type : String
  price : Int
  timestamp : String
deriving DecidableEq, Repr

/-- Outcome of one storage call: success, a `pg8000.Error`, or any other
exception (both exception kinds are caught inside the handler). -/
inductive DbWrite where
  | ok
  | pgError (e : String)
  | unexpectedError (e : String)
deriving DecidableEq, Repr

/-- `database_handler.insert_market_data` (src/database_handler.py lines
104-126), acting on the store contents.  A `None` price returns before any
database work; on an error the exception is caught (only logged) and the
transaction rolls back, leaving the store unchanged; on success exactly one
row is appended.  The function returns normally in every case. -/
def insert_market_data (store : List PricePoint) (item platform ts side : String)
    (price : Option Int) (outcome : DbWrite) : List PricePoint :=
  match price with
  | none => store
  | some p =>
    match outcome with
    | DbWrite.ok => store ++ [⟨item, platform, side, p, ts⟩]
    | DbWrite.pgError _ => store
    | DbWrite.unexpectedError _ => store

/-- Outcome of the windowed history query. -/
inductive DbRead where
  | ok (prices : List Int)
  | pgError (e : String)
  | unexpectedError (e : String)
deriving DecidableEq, Repr

/-- `database_handler.get_historical_prices_for_item` (src/database_handler.py
lines 129-154): `prices` is initialised to `[]`; on a `pg8000.Error` or any
other exception the handler catches it, logs, and falls through to
`return prices` — so a failed read returns the empty list, exactly like a
successful read that found nothing. -/
def get_historical_prices_for_item (result : DbRead) : List Int :=
  match result with
  | DbRead.ok prices => prices
  | DbRead.pgError _ => []
  | DbRead.unexpectedError _ => []

/-- Counterexample to C3 as stated: a failed read returns `[]`, the very
value a successful empty read returns, so the failure is not reported to
the caller distinguishably. -/
theorem storage_failure_counterexample :
    get_historical_prices_for_item (DbRead.pgError "connection reset") =
        get_historical_prices_for_item (DbRead.ok []) ∧
      get_historical_prices_for_item (DbRead.pgError "connection reset") = [] :=
  ⟨rfl, rfl⟩

/-- C3 amended: a single failed read or write mid-session is caught (the
operation returns normally, the process does not crash) and prior store
state is retained, but the failure is only logged, not reported to the
caller: a failed read returns the empty list — indistinguishable from a
successful empty result — and a failed write is silently dropped. -/
theorem storage_failure_amended :
    (∀ e, get_historical_prices_for_item (DbRead.pgError e) = [] ∧
      get_historical_prices_for_item (DbRead.unexpectedError e) = []) ∧
      (∀ (store : List PricePoint) (item platform ts side : String) (p : Int) (e : String),
        insert_market_data store item platform ts side (some p) (DbWrite.pgError e) = store ∧
          insert_market_data store item platform ts side (some p) (DbWrite.unexpectedError e) =
            store) ∧
      ∀ (store : List PricePoint) (item platform ts side : String) (outcome : DbWrite),
        insert_market_data store item platform ts side none outcome = store :=
  ⟨fun _ => ⟨rfl, rfl⟩, fun _ _ _ _ _ _ _ => ⟨rfl, rfl⟩, fun _ _ _ _ _ _ => rfl⟩

/-! ## Ingestion (`main.py`, `fetch_single_item_thread`; same price-point
computation as `src/api/index.py` lines 71-84 and `src/index.py` lines
63-70) -/

/-- The storage effect of `fetch_single_item_thread` (src/main.py lines
168-197): on fetch failure (`orders is None`) nothing is written; otherwise
the minimum sell price and maximum buy price (each `None` when that side
has no order) are handed to `insert_market_data`, whose `None` guard skips
the write.  Writes are taken on their success path; the storage failure
modes are covered by the store theorems above. -/
def fetch_single_item_thread (store : List PricePoint) (item platform ts : String)
    (orders : Option (List Order)) : List PricePoint :=
  match orders with
  | none => store
  | some os =>
    insert_market_data
      (insert_market_data store item platform ts "sell" (minSellOf os) DbWrite.ok)
      item platform ts "buy" (maxBuyOf os) DbWrite.ok

/-- C8: the ingestion step writes nothing on fetch failure; on success it
appends exactly one point per side that has at least one relevant order,
and that point's price is the extremal price of its side (minimum over
sells, maximum over buys). -/
theorem ingestion_extremal_prices :
    (∀ (store : List PricePoint) (item platform ts : String),
      fetch_single_item_thread store item platform ts none = store) ∧
      (∀ (store : List PricePoint) (item platform ts : String) (os : List Order),
        fetch_single_item_thread store item platform ts (some os) =
          store ++
            (match minSellOf os with
              | none => []
              | some m => [⟨item, platform, "sell", m, ts⟩]) ++
            (match maxBuyOf os with
              | none => []
              | some m => [⟨item, platform, "buy", m, ts⟩])) ∧
      (∀ os : List Order, (minSellOf os).isSome ↔ sellPricesOf os ≠ []) ∧
      (∀ (os : List Order) (m : Int), minSellOf os = some m →
        m ∈ sellPricesOf os ∧ ∀ q ∈ sellPricesOf os, m ≤ q) ∧
      (∀ os : List Order, (maxBuyOf os).isSome ↔ buyPricesOf os ≠ []) ∧
      ∀ (os : List Order) (m : Int), maxBuyOf os = some m →
        m ∈ buyPricesOf os ∧ ∀ q ∈ buyPricesOf os, q ≤ m := by
  refine ⟨fun _ _ _ _ => rfl, ?_, ?_, fun os m hm => minSellOf_spec os m hm, ?_,
    fun os m hm => maxBuyOf_spec os m hm⟩
  · intro store item platform ts os
    cases h1 : minSellOf os <;> cases h2 : maxBuyOf os <;>
      simp [fetch_single_item_thread, insert_market_data, h1, h2]
  · intro os
    rw [Option.isSome_iff_ne_none, not_iff_not.symm, not_not, minSellOf_none_iff, not_not]
  · intro os
    rw [Option.isSome_iff_ne_none, not_iff_not.symm, not_not, maxBuyOf_none_iff, not_not]

/-- Witness for `ingestion_extremal_prices` at a concrete fetched order
set. -/
theorem ingestion_extremal_prices_witness :
    (7 : Int) ∈ sellPricesOf
        [⟨"sell", 7, true, "online", "pc"⟩, ⟨"buy", 3, true, "online", "pc"⟩] ∧
      ∀ q ∈ sellPricesOf
          [⟨"sell", 7, true, "online", "pc"⟩, ⟨"buy", 3, true, "online", "pc"⟩],
        (7 : Int) ≤ q :=
  ingestion_extremal_prices.2.2.2.1
    [⟨"sell", 7, true, "online", "pc"⟩, ⟨"buy", 3, true, "online", "pc"⟩] 7 (by decide)

/-! ## HTTP surface: `GET /fetch_item` (src/api/index.py lines 37-124) -/

/-- A response body: either the orders payload or an error message. -/
inductive FetchItemBody where
  | orders (os : List Order)
  | err (msg : String)
deriving DecidableEq, Repr

/-- The `fetch_item` endpoint (src/api/index.py lines 37-124).  `name` is
the query parameter (`none` when absent; the code's `if not item_url_name`
also rejects the empty string); `fetched` is `api_handler.get_market_data`'s
result, which is `none` on *every* upstream failure — network error,
non-2xx, timeout, JSON decode failure, malformed payload — because that
function catches every exception internally; `db` is the combined outcome
of the storage steps (connection plus the two inserts).  Consequently the
endpoint's `except` branches returning 502 can never run: an upstream
failure surfaces as a 200 with an empty orders list (the code comments this
choice explicitly). -/
def api_fetch_item (name : Option String) (fetched : Option (List Order))
    (db : DbWrite) : Nat × FetchItemBody :=
  match name with
  | none => (400, FetchItemBody.err "Missing name parameter")
  | some s =>
    if s = "" then (400, FetchItemBody.err "Missing name parameter")
    else
      match fetched with
      | none => (200, FetchItemBody.orders [])
      | some orders =>
        match db with
        | DbWrite.ok => (200, FetchItemBody.orders orders)
        | DbWrite.pgError _ => (500, FetchItemBody.err "Database operation failed")
        | DbWrite.unexpectedError _ =>
          (500, FetchItemBody.err "An internal server error occurred")

/-- Counterexample to C2 as stated: when the upstream fetch fails the
endpoint answers 200 with an empty orders list, not 502. -/
theorem fetch_item_502_counterexample :
    api_fetch_item (some "ash_prime") none DbWrite.ok =
        (200, FetchItemBody.orders []) ∧
      (api_fetch_item (some "ash_prime") none DbWrite.ok).1 ≠ 502 :=
  ⟨rfl, by decide⟩

/-- C2 amended: 200 with the orders list on success (including the empty
list when no relevant order exists); 400 when the name parameter is missing
(or empty); 200 with an empty orders list when the upstream fetch or
parsing fails, the 502 branches being unreachable; 500 on storage or
unexpected failure. -/
theorem fetch_item_status_codes :
    (∀ fetched db,
      api_fetch_item none fetched db = (400, FetchItemBody.err "Missing name parameter")) ∧
      (∀ fetched db,
        api_fetch_item (some "") fetched db =
          (400, FetchItemBody.err "Missing name parameter")) ∧
      (∀ (s : String) db, s ≠ "" →
        api_fetch_item (some s) none db = (200, FetchItemBody.orders [])) ∧
      (∀ (s : String) (os : List Order), s ≠ "" →
        api_fetch_item (some s) (some os) DbWrite.ok = (200, FetchItemBody.orders os)) ∧
      (∀ (s : String) (os : List Order) (e : String), s ≠ "" →
        (api_fetch_item (some s) (some os) (DbWrite.pgError e)).1 = 500) ∧
      (∀ (s : String) (os : List Order) (e : String), s ≠ "" →
        (api_fetch_item (some s) (some os) (DbWrite.unexpectedError e)).1 = 500) ∧
      ∀ name fetched db, (api_fetch_item name fetched db).1 ≠ 502 := by
  refine ⟨fun _ _ => rfl, fun _ _ => rfl, ?_, ?_, ?_, ?_, ?_⟩
  · intro s db hs; simp [api_fetch_item, hs]
  · intro s os hs; simp [api_fetch_item, hs]
  · intro s os e hs; simp [api_fetch_item, hs]
  · intro s os e hs; simp [api_fetch_item, hs]
  · intro name fetched db
    match name with
    | none => simp [api_fetch_item]
    | some s =>
      by_cases hs : s = ""
      · simp [api_fetch_item, hs]
      · match fetched with
        | none => simp [api_fetch_item, hs]
        | some os =>
          match db with
          | DbWrite.ok => simp [api_fetch_item, hs]
          | DbWrite.pgError e => simp [api_fetch_item, hs]
          | DbWrite.unexpectedError e => simp [api_fetch_item, hs]

/-- Witness for `fetch_item_status_codes`: a successful fetch with no
relevant orders is a 200 with an empty list. -/
theorem fetch_item_status_codes_witness :
    api_fetch_item (some "ash_prime") (some []) DbWrite.ok =
      (200, FetchItemBody.orders []) :=
  fetch_item_status_codes.2.2.2.1 "ash_prime" [] (by decide)

/-! ## Watchlist (src/main.py): add / remove / check cycle -/

/-- One watchlist entry, the value of `watched_items[item_url_name]`
(field order follows the dict literal in `add_watchlist_clicked`). -/
structure WatchedItem where
  status : String
  last_checked : Option String
  friendly_name : String
deriving DecidableEq, Repr

/-- The in-memory `watched_items` dict: association list from item key to
entry (a Python dict has distinct keys; lookups match the first
occurrence). -/
abbrev Watchlist := List (String × WatchedItem)

/-- Dict lookup `watched_items.get(key)`. -/
def wlLookup : Watchlist → String → Option WatchedItem
  | [], _ => none
  | e :: rest, key => if e.1 = key then some e.2 else wlLookup rest key

/-- `list(watched_items.keys())`. -/
def wlKeys (wl : Watchlist) : List String :=
  wl.map (·.1)

/-- The cycle's only write: `if item_url_name in watched_items:
watched_items[item_url_name]['status'] = status;
watched_items[item_url_name]['last_checked'] = ts` (src/main.py lines 246
and 251).  An entry with a different key is untouched; when the key is
absent the guard skips the write entirely. -/
def wlSet (wl : Watchlist) (key status ts : String) : Watchlist :=
  wl.map fun e => if e.1 = key then (e.1, ⟨status, some ts, e.2.friendly_name⟩) else e

/-- `add_watchlist_clicked` (src/main.py lines 214-228): adds the entry
when the key is absent; otherwise changes nothing and signals "already on
watchlist" (the `Bool` component). -/
def add_watchlist_clicked (wl : Watchlist) (url_name friendly_name : String) :
    Watchlist × Bool :=
  if wlLookup wl url_name = none then
    (wl ++ [(url_name, ⟨"Not Checked", none, friendly_name⟩)], false)
  else (wl, true)

/-- `remove_watchlist_item` (src/main.py lines 278-285): deletes the entry
if present, otherwise a no-op. -/
def remove_watchlist_item (wl : Watchlist) (url_name : String) : Watchlist :=
  wl.filter fun e => !(e.1 == url_name)

/-- The per-item loop of `check_watchlist_prices_thread` (src/main.py lines
242-253).  `cancelledAt i` is the stop flag's value observed at the top of
iteration `i`; `evalStatus key` is the status string
`check_watched_item_deal` produces for `key` during this cycle;
`tsChecking` / `tsDone` are the two timestamp strings taken at iteration
`i`.  In automatic runs a set flag breaks the loop before the item's
"Checking..." write. -/
def checkLoop (isAuto : Bool) (cancelledAt : Nat → Bool) (evalStatus : String → String)
    (tsChecking tsDone : Nat → String) : List String → Nat → Watchlist → Watchlist
  | [], _, wl => wl
  | key :: rest, i, wl =>
    if isAuto && cancelledAt i then wl
    else
      checkLoop isAuto cancelledAt evalStatus tsChecking tsDone rest (i + 1)
        (wlSet (wlSet wl key "Checking..." (tsChecking i)) key (evalStatus key) (tsDone i))

/-- `check_watchlist_prices_thread` (src/main.py lines 230-255): snapshot
the keys, return unchanged if the watchlist is empty, otherwise run the
loop from index 0. -/
def check_watchlist_prices_thread (isAuto : Bool) (cancelledAt : Nat → Bool)
    (evalStatus : String → String) (tsChecking tsDone : Nat → String)
    (wl : Watchlist) : Watchlist :=
  if wlKeys wl = [] then wl
  else checkLoop isAuto cancelledAt evalStatus tsChecking tsDone (wlKeys wl) 0 wl

theorem wlKeys_wlSet (wl : Watchlist) (key status ts : String) :
    wlKeys (wlSet wl key status ts) = wlKeys wl := by
  unfold wlKeys wlSet
  rw [List.map_map]
  exact List.map_congr_left fun e _ => by by_cases h : e.1 = key <;> simp [h]

theorem wlSet_id_of_absent (wl : Watchlist) (key status ts : String)
    (h : wlLookup wl key = none) : wlSet wl key status ts = wl := by
  induction wl with
  | nil => rfl
  | cons e rest ih =>
    rw [wlLookup] at h
    by_cases hk : e.1 = key
    · rw [if_pos hk] at h
      exact absurd h (by simp)
    · rw [if_neg hk] at h
      have htail := ih h
      simp only [wlSet, List.map_cons, if_neg hk]
      simp only [wlSet] at htail
      rw [htail]

theorem wlLookup_wlSet_ne (wl : Watchlist) (key status ts k2 : String)
    (h : k2 ≠ key) : wlLookup (wlSet wl key status ts) k2 = wlLookup wl k2 := by
  induction wl with
  | nil => rfl
  | cons e rest ih =>
    by_cases hk : e.1 = key
    · have hne : ¬e.1 = k2 := by
        rw [hk]
        exact fun hh => h hh.symm
      simp only [wlSet, List.map_cons, if_pos hk, wlLookup, hne, if_false, if_neg hne]
      exact ih
    · by_cases hk2 : e.1 = k2
      · simp only [wlSet, List.map_cons, if_neg hk, wlLookup, if_pos hk2]
      · simp only [wlSet, List.map_cons, if_neg hk, wlLookup, if_neg hk2]
        exact ih

theorem wlKeys_checkLoop (isAuto : Bool) (cancelledAt : Nat → Bool)
    (evalStatus : String → String) (tsChecking tsDone : Nat → String) :
    ∀ (snap : List String) (i : Nat) (wl : Watchlist),
      wlKeys (checkLoop isAuto cancelledAt evalStatus tsChecking tsDone snap i wl) =
        wlKeys wl := by
  intro snap
  induction snap with
  | nil => intro i wl; rfl
  | cons key rest ih =>
    intro i wl
    rw [checkLoop]
    by_cases hc : isAuto && cancelledAt i
    · rw [if_pos hc]
    · rw [if_neg hc, ih, wlKeys_wlSet, wlKeys_wlSet]

theorem checkLoop_lookup_of_not_mem (isAuto : Bool) (cancelledAt : Nat → Bool)
    (evalStatus : String → String) (tsChecking tsDone : Nat → String) :
    ∀ (snap : List String) (i : Nat) (wl : Watchlist) (key : String), key ∉ snap →
      wlLookup (checkLoop isAuto cancelledAt evalStatus tsChecking tsDone snap i wl) key =
        wlLookup wl key := by
  intro snap
  induction snap with
  | nil => intro i wl key _; rfl
  | cons k rest ih =>
    intro i wl key h
    have hk : key ≠ k := fun hh => h (hh ▸ List.mem_cons_self k rest)
    have hrest : key ∉ rest := fun hh => h (List.mem_cons_of_mem _ hh)
    rw [checkLoop]
    by_cases hc : isAuto && cancelledAt i
    · rw [if_pos hc]
    · rw [if_neg hc, ih _ _ _ hrest, wlLookup_wlSet_ne _ _ _ _ _ hk,
        wlLookup_wlSet_ne _ _ _ _ _ hk]

theorem checkLoop_stops_at_flag (cancelledAt : Nat → Bool)
    (evalStatus : String → String) (tsChecking tsDone : Nat → String) :
    ∀ (snap : List String) (k i : Nat) (wl : Watchlist),
      (∀ j, j < k → cancelledAt (i + j) = false) → cancelledAt (i + k) = true →
      checkLoop true cancelledAt evalStatus tsChecking tsDone snap i wl =
        checkLoop true cancelledAt evalStatus tsChecking tsDone (snap.take k) i wl := by
  intro snap
  induction snap with
  | nil => intro k i wl _ _; rw [List.take_nil]
  | cons key rest ih =>
    intro k i wl hlt htrue
    cases k with
    | zero =>
      have hc : cancelledAt i = true := by simpa using htrue
      simp only [List.take_zero, checkLoop]
      rw [if_pos (by simp [hc])]
    | succ kp =>
      have h0 : cancelledAt i = false := by simpa using hlt 0 (Nat.succ_pos kp)
      rw [List.take_succ_cons]
      simp only [checkLoop]
      rw [if_neg (by simp [h0]), if_neg (by simp [h0])]
      apply ih kp (i + 1)
      · intro j hj
        have harg : i + 1 + j = i + (j + 1) := by omega
        rw [harg]
        exact hlt (j + 1) (by omega)
      · have harg : i + 1 + kp = i + (kp + 1) := by omega
        rw [harg]
        exact htrue

theorem get_not_mem_take (l : List String) (hnd : l.Nodup) (k j : Nat)
    (hkj : k ≤ j) (hj : j < l.length) : l.get ⟨j, hj⟩ ∉ l.take k := by
  intro hmem
  have hsplit : l.take k ++ l.drop k = l := List.take_append_drop k l
  have hnd2 : (l.take k ++ l.drop k).Nodup := by rw [hsplit]; exact hnd
  have hdisj := (List.nodup_append.mp hnd2).2.2
  have hlen : j - k < (l.drop k).length := by
    rw [List.length_drop]
    omega
  have hdrop : (l.drop k).get ⟨j - k, hlen⟩ = l.get ⟨j, hj⟩ := by
    simp only [List.get_eq_getElem, List.getElem_drop]
    congr 1
    omega
  exact hdisj hmem (hdrop ▸ List.get_mem (l.drop k) (j - k) hlen)

/-- C5: in an automatic cycle where the stop flag is first observed set at
the start of iteration `k` (items `0 ≤ i < k` completed with the flag
clear), the cycle produces exactly the state of processing only the first
`k` snapshot items; every key outside those first `k` — in particular each
remaining snapshot item, by distinctness of dict keys — keeps its entry
(status, last_checked, display name) unmodified. -/
theorem auto_check_cancellation (cancelledAt : Nat → Bool)
    (evalStatus : String → String) (tsChecking tsDone : Nat → String)
    (wl : Watchlist) (k : Nat)
    (hbefore : ∀ i, i < k → cancelledAt i = false) (hat : cancelledAt k = true) :
    check_watchlist_prices_thread true cancelledAt evalStatus tsChecking tsDone wl =
        checkLoop true cancelledAt evalStatus tsChecking tsDone ((wlKeys wl).take k) 0 wl ∧
      (∀ key, key ∉ (wlKeys wl).take k →
        wlLookup
            (check_watchlist_prices_thread true cancelledAt evalStatus tsChecking tsDone wl)
            key =
          wlLookup wl key) ∧
      ((wlKeys wl).Nodup → ∀ (j : Nat) (hj : j < (wlKeys wl).length), k ≤ j →
        wlLookup
            (check_watchlist_prices_thread true cancelledAt evalStatus tsChecking tsDone wl)
            ((wlKeys wl).get ⟨j, hj⟩) =
          wlLookup wl ((wlKeys wl).get ⟨j, hj⟩)) := by
  have hzero : ∀ j, j < k → cancelledAt (0 + j) = false := by
    intro j hj
    rw [Nat.zero_add]
    exact hbefore j hj
  have hzerok : cancelledAt (0 + k) = true := by rw [Nat.zero_add]; exact hat
  by_cases hnil : wlKeys wl = []
  · have hthread : check_watchlist_prices_thread true cancelledAt evalStatus tsChecking
        tsDone wl = wl := by
      rw [check_watchlist_prices_thread, if_pos hnil]
    refine ⟨?_, fun key _ => by rw [hthread], fun _ j hj _ => by rw [hthread]⟩
    rw [hthread, hnil, List.take_nil, checkLoop]
  · have hthread : check_watchlist_prices_thread true cancelledAt evalStatus tsChecking
        tsDone wl =
        checkLoop true cancelledAt evalStatus tsChecking tsDone (wlKeys wl) 0 wl := by
      rw [check_watchlist_prices_thread, if_neg hnil]
    have hstop := checkLoop_stops_at_flag cancelledAt evalStatus tsChecking tsDone
      (wlKeys wl) k 0 wl hzero hzerok
    refine ⟨by rw [hthread, hstop], ?_, ?_⟩
    · intro key hkey
      rw [hthread, hstop]
      exact checkLoop_lookup_of_not_mem _ _ _ _ _ _ _ _ _ hkey
    · intro hnd j hj hkj
      rw [hthread, hstop]
      exact checkLoop_lookup_of_not_mem _ _ _ _ _ _ _ _ _
        (get_not_mem_take (wlKeys wl) hnd k j hkj hj)

/-- Witness for `auto_check_cancellation`: two items, flag set after the
first completes; the second item's entry is untouched. -/
theorem auto_check_cancellation_witness :
    wlLookup
        (check_watchlist_prices_thread true (fun i => decide (1 ≤ i))
          (fun _ => "Normal (90p vs 100p)") (fun _ => "10:00:00")
          (fun _ => "2024-01-01 10:00")
          [("ash_prime", ⟨"Not Checked", none, "Ash Prime"⟩),
            ("ember_prime", ⟨"Not Checked", none, "Ember Prime"⟩)])
        "ember_prime" =
      wlLookup
        [("ash_prime", ⟨"Not Checked", none, "Ash Prime"⟩),
          ("ember_prime", ⟨"Not Checked", none, "Ember Prime"⟩)]
        "ember_prime" :=
  (auto_check_cancellation (fun i => decide (1 ≤ i)) (fun _ => "Normal (90p vs 100p)")
      (fun _ => "10:00:00") (fun _ => "2024-01-01 10:00")
      [("ash_prime", ⟨"Not Checked", none, "Ash Prime"⟩),
        ("ember_prime", ⟨"Not Checked", none, "Ember Prime"⟩)]
      1
      (by
        intro i hi
        have h0 : i = 0 := by omega
        rw [h0]
        rfl)
      (by rfl)).2.1 "ember_prime" (by decide)

/-- C9: adding an item key that is already on the watchlist changes nothing
and signals "already present". -/
theorem watchlist_add_idempotent (wl : Watchlist) (url_name friendly_name : String)
    (h : wlLookup wl url_name ≠ none) :
    add_watchlist_clicked wl url_name friendly_name = (wl, true) := by
  rw [add_watchlist_clicked, if_neg h]

/-- Witness for `watchlist_add_idempotent` on a one-entry watchlist. -/
theorem watchlist_add_idempotent_witness :
    add_watchlist_clicked
        [("ash_prime", ⟨"Good Buy! (80p < 85p)", some "2024-01-01 10:00", "Ash Prime"⟩)]
        "ash_prime" "Ash Prime" =
      ([("ash_prime", ⟨"Good Buy! (80p < 85p)", some "2024-01-01 10:00", "Ash Prime"⟩)],
        true) :=
  watchlist_add_idempotent
    [("ash_prime", ⟨"Good Buy! (80p < 85p)", some "2024-01-01 10:00", "Ash Prime"⟩)]
    "ash_prime" "Ash Prime" (by decide)

/-- C10: the check cycle's guarded status write never adds a key — it is
the identity when the key has been removed — and a whole cycle leaves the
key set of the watchlist exactly unchanged, so the key set changes only
through the add and remove operations. -/
theorem cycle_never_adds_keys :
    (∀ (wl : Watchlist) (key status ts : String),
      wlKeys (wlSet wl key status ts) = wlKeys wl) ∧
      (∀ (wl : Watchlist) (key status ts : String),
        wlLookup wl key = none → wlSet wl key status ts = wl) ∧
      ∀ (isAuto : Bool) (cancelledAt : Nat → Bool) (evalStatus : String → String)
        (tsChecking tsDone : Nat → String) (snap : List String) (i : Nat)
        (wl : Watchlist),
        wlKeys (checkLoop isAuto cancelledAt evalStatus tsChecking tsDone snap i wl) =
          wlKeys wl :=
  ⟨wlKeys_wlSet, wlSet_id_of_absent,
    fun isAuto c e t1 t2 snap i wl => wlKeys_checkLoop isAuto c e t1 t2 snap i wl⟩

/-- Witness for `cycle_never_adds_keys`: writing a status for a removed key
leaves the watchlist exactly as it was. -/
theorem cycle_never_adds_keys_witness :
    wlSet [("ash_prime", ⟨"Not Checked", none, "Ash Prime"⟩)] "ember_prime"
        "Checking..." "10:00:00" =
      [("ash_prime", ⟨"Not Checked", none, "Ash Prime"⟩)] :=
  cycle_never_adds_keys.2.1 [("ash_prime", ⟨"Not Checked", none, "Ash Prime"⟩)]
    "ember_prime" "Checking..." "10:00:00" (by decide)

end WFAnalyzer
